import Mathlib

/-!
Verification of the inventory/sales ledger core of the
Invertory-Management-System repository.

The data model and operations below are a shallow embedding of the
backend source:
  * `createSale`        — src/backend/src/controllers/transaction.controller.ts
  * `createLot`, `getLot`, `updateLot`, `generateLotNumber`, `deleteLot`
                        — the lot controller (src/unnamed/part_002)
  * the Lot / Transaction / Tenant document shapes
                        — the mongoose models (src/unnamed/part_003, part_004)

Modelling conventions:
  * Mongo ObjectIds are `Nat`; mongo guarantees `_id` uniqueness inside a
    collection, which theorems assume through explicit `Nodup` hypotheses.
  * JS numbers are `Int` for (integer-validated) quantities and `ℚ` for
    money amounts.
  * The mongoose session of `createSale` (startTransaction / abort / commit)
    is embedded by returning the untouched store on every error branch and
    the saved store only on the single success branch, which is exactly
    what abort-before-save achieves in the source.
  * Zod request validation (`createSaleSchema`, `createLotSchema`) is
    embedded as decidable `Valid…` predicates checked before the handler
    body, mirroring `schema.parse` throwing before any store access.
-/

namespace Inventory

/-- A size entry of a lot (mongoose `SizeSchema`, src/unnamed/part_004). -/
structure Size where
  size : String
  quantity : Int
  remainingQuantity : Int
  purchaseCostPerPiece : ℚ
  sellCostPerPiece : ℚ
  deriving DecidableEq

/-- A color entry of a lot (mongoose `ColorSchema`). -/
structure Color where
  color : String
  sizes : List Size
  deriving DecidableEq

/-- A lot document (mongoose `LotSchema`). -/
structure Lot where
  id : Nat
  tenantId : Nat
  lotNumber : String
  items : List Color
  totalInvestment : ℚ
  totalRevenue : ℚ
  totalProfit : ℚ
  createdAt : Nat
  createdBy : Nat
  deriving DecidableEq

/-- A processed sold line item (mongoose `SoldItemSchema`, src/unnamed/part_003). -/
structure SoldItem where
  color : String
  size : String
  quantity : Int
  sellPricePerPiece : ℚ
  totalAmount : ℚ
  deriving DecidableEq

/-- A sale transaction document (mongoose `TransactionSchema`). -/
structure Transaction where
  tenantId : Nat
  lotId : Nat
  soldItems : List SoldItem
  totalRevenue : ℚ
  soldBy : Nat
  customerName : Option String
  invoiceNumber : Option String
  deriving DecidableEq

/-- A tenant document (mongoose `TenantSchema`); `lotPfx` embeds
`settings.lotPrefix`. -/
structure Tenant where
  id : Nat
  lotPfx : String
  deriving DecidableEq

/-- User roles (mongoose `UserSchema.role`). -/
inductive Role where
  | admin
  | staff
  deriving DecidableEq

/-- The persisted state: the Lot and Transaction collections. -/
structure DBState where
  lots : List Lot
  transactions : List Transaction
  deriving DecidableEq

/-- A requested sale line (`soldItemSchema` of the transaction controller). -/
structure SoldItemReq where
  color : String
  size : String
  quantity : Int
  sellPricePerPiece : ℚ
  deriving DecidableEq

/-- A sale request body (`createSaleSchema`). -/
structure SaleRequest where
  lotId : Nat
  soldItems : List SoldItemReq
  customerName : Option String
  invoiceNumber : Option String
  deriving DecidableEq

/-- A requested size entry (`sizeSchema` of the lot controller). -/
structure SizeReq where
  size : String
  quantity : Int
  purchaseCostPerPiece : ℚ
  sellCostPerPiece : ℚ
  deriving DecidableEq

/-- A requested color entry (`colorSchema`). -/
structure ColorReq where
  color : String
  sizes : List SizeReq
  deriving DecidableEq

/-- A lot create/update request body (`createLotSchema`). -/
structure LotRequest where
  lotNumber : String
  items : List ColorReq
  deriving DecidableEq

/-- The error taxonomy of the controllers.  `colorNotFound` and
`sizeNotFound` embed the `VALIDATION_ERROR` responses naming the missing
color/size; `insufficientStock` carries the reported available and
requested amounts. -/
inductive ApiError where
  | validationError
  | notFound
  | forbidden
  | colorNotFound (color : String)
  | sizeNotFound (color size : String)
  | insufficientStock (color size : String) (available requested : Int)
  deriving DecidableEq

/-- Zod `soldItemSchema`: nonempty color/size, integer quantity ≥ 1,
sell price ≥ 0. -/
def ValidSoldItem (r : SoldItemReq) : Prop :=
  r.color ≠ "" ∧ r.size ≠ "" ∧ 1 ≤ r.quantity ∧ 0 ≤ r.sellPricePerPiece

instance (r : SoldItemReq) : Decidable (ValidSoldItem r) := by
  unfold ValidSoldItem; exact inferInstance

/-- Zod `createSaleSchema`: at least one sold item, each valid. -/
def ValidSaleReq (r : SaleRequest) : Prop :=
  r.soldItems ≠ [] ∧ ∀ it ∈ r.soldItems, ValidSoldItem it

instance (r : SaleRequest) : Decidable (ValidSaleReq r) := by
  unfold ValidSaleReq; exact inferInstance

/-- Zod `sizeSchema`: nonempty size label, integer quantity ≥ 1,
non-negative costs. -/
def ValidSizeReq (r : SizeReq) : Prop :=
  r.size ≠ "" ∧ 1 ≤ r.quantity ∧ 0 ≤ r.purchaseCostPerPiece ∧ 0 ≤ r.sellCostPerPiece

instance (r : SizeReq) : Decidable (ValidSizeReq r) := by
  unfold ValidSizeReq; exact inferInstance

/-- Zod `colorSchema`: nonempty color, at least one valid size. -/
def ValidColorReq (r : ColorReq) : Prop :=
  r.color ≠ "" ∧ r.sizes ≠ [] ∧ ∀ s ∈ r.sizes, ValidSizeReq s

instance (r : ColorReq) : Decidable (ValidColorReq r) := by
  unfold ValidColorReq; exact inferInstance

/-- Zod `createLotSchema`: nonempty lot number, at least one valid color. -/
def ValidLotReq (r : LotRequest) : Prop :=
  r.lotNumber ≠ "" ∧ r.items ≠ [] ∧ ∀ c ∈ r.items, ValidColorReq c

instance (r : LotRequest) : Decidable (ValidLotReq r) := by
  unfold ValidLotReq; exact inferInstance

/-- Update the first list element satisfying `p` (the JS idiom of
`array.find(...)` followed by mutation of the found element). -/
def updateFirst (p : α → Bool) (f : α → α) : List α → List α
  | [] => []
  | x :: xs => if p x then f x :: xs else x :: updateFirst p f xs

/-- `lot.items.find(item => item.color === c)`. -/
def findColor (items : List Color) (c : String) : Option Color :=
  items.find? fun it => decide (it.color = c)

/-- `colorItem.sizes.find(s => s.size === s)`. -/
def findSize (sizes : List Size) (s : String) : Option Size :=
  sizes.find? fun it => decide (it.size = s)

/-- `Lot.findOne({_id: lid, tenantId: tid})`. -/
def findLot (lots : List Lot) (lid tid : Nat) : Option Lot :=
  lots.find? fun l => decide (l.id = lid ∧ l.tenantId = tid)

/-- `lot.save()`: write back the (uniquely-identified) fetched document. -/
def saveLot (lots : List Lot) (lot' : Lot) : List Lot :=
  updateFirst (fun l => decide (l.id = lot'.id)) (fun _ => lot') lots

/-- `Lot.findByIdAndDelete(id)`: remove the document with that `_id`. -/
def removeById : List Lot → Nat → List Lot
  | [], _ => []
  | l :: ls, lid => if l.id = lid then ls else l :: removeById ls lid

/-- `sizeItem.remainingQuantity -= q` on the first matching size of the
first matching color (the in-memory mutation inside `createSale`'s loop). -/
def decSizes (sizes : List Size) (s : String) (q : Int) : List Size :=
  updateFirst (fun z => decide (z.size = s))
    (fun z => { z with remainingQuantity := z.remainingQuantity - q }) sizes

/-- Decrement `remainingQuantity` of the (first) size `s` of the (first)
color `c` by `q`. -/
def decrementSize (items : List Color) (c s : String) (q : Int) : List Color :=
  updateFirst (fun it => decide (it.color = c))
    (fun col => { col with sizes := decSizes col.sizes s q }) items

/-- The mutable state of `createSale`'s per-line loop: the in-memory lot
items plus the `totalRevenue` / `totalProfit` / `processedItems`
accumulators. -/
structure LoopState where
  items : List Color
  totalRevenue : ℚ
  totalProfit : ℚ
  processedItems : List SoldItem
  deriving DecidableEq

/-- The `for (const soldItem of validatedData.soldItems)` loop of
`createSale`: resolve color then size, check stock, accumulate revenue and
profit, push the processed item, decrement the remaining quantity, and move
to the next line (so later lines see already-decremented remainders). -/
def processSoldItems : List SoldItemReq → LoopState → Except ApiError LoopState
  | [], st => .ok st
  | r :: rs, st =>
    match findColor st.items r.color with
    | none => .error (.colorNotFound r.color)
    | some colorItem =>
      match findSize colorItem.sizes r.size with
      | none => .error (.sizeNotFound r.color r.size)
      | some sizeItem =>
        if sizeItem.remainingQuantity < r.quantity then
          .error (.insufficientStock r.color r.size sizeItem.remainingQuantity r.quantity)
        else
          let itemTotalAmount := (r.quantity : ℚ) * r.sellPricePerPiece
          let totalSellAmount := (r.quantity : ℚ) * r.sellPricePerPiece
          let totalPurchaseAmount := (r.quantity : ℚ) * sizeItem.purchaseCostPerPiece
          let itemProfit := totalSellAmount - totalPurchaseAmount
          processSoldItems rs
            { items := decrementSize st.items r.color r.size r.quantity
              totalRevenue := st.totalRevenue + itemTotalAmount
              totalProfit := st.totalProfit + itemProfit
              processedItems := st.processedItems ++
                [⟨r.color, r.size, r.quantity, r.sellPricePerPiece, itemTotalAmount⟩] }

instance {ε α : Type} [DecidableEq ε] [DecidableEq α] : DecidableEq (Except ε α) :=
  fun x y =>
    match x, y with
    | .error a, .error b =>
      if h : a = b then .isTrue (by rw [h])
      else .isFalse (by intro hc; cases hc; exact h rfl)
    | .error _, .ok _ => .isFalse (by intro hc; cases hc)
    | .ok _, .error _ => .isFalse (by intro hc; cases hc)
    | .ok a, .ok b =>
      if h : a = b then .isTrue (by rw [h])
      else .isFalse (by intro hc; cases hc; exact h rfl)

/-- Outcome of `createSale`: the persisted state after the call together
with the HTTP-level result. -/
structure SaleOutcome where
  state : DBState
  result : Except ApiError Transaction
  deriving DecidableEq

/-- `createSale` (transaction.controller.ts): validate the body, resolve
the lot tenant-scoped, run the per-line loop, then — only on success —
save the updated lot and insert the transaction record.  Every error
branch aborts the mongoose session, so the persisted state it returns is
the original one. -/
def createSale (tid uid : Nat) (st : DBState) (req : SaleRequest) : SaleOutcome :=
  if ValidSaleReq req then
    match findLot st.lots req.lotId tid with
    | none => ⟨st, .error .notFound⟩
    | some lot =>
      match processSoldItems req.soldItems ⟨lot.items, 0, 0, []⟩ with
      | .error e => ⟨st, .error e⟩
      | .ok fin =>
        let lot' := { lot with
          items := fin.items
          totalRevenue := lot.totalRevenue + fin.totalRevenue
          totalProfit := lot.totalProfit + fin.totalProfit }
        let tx : Transaction :=
          ⟨tid, req.lotId, fin.processedItems, fin.totalRevenue, uid,
            req.customerName, req.invoiceNumber⟩
        ⟨⟨saveLot st.lots lot', st.transactions ++ [tx]⟩, .ok tx⟩
  else ⟨st, .error .validationError⟩

/-- Build a stored size entry from a requested one, seeding
`remainingQuantity = quantity` (lot controller, createLot/updateLot). -/
def buildSize (r : SizeReq) : Size :=
  ⟨r.size, r.quantity, r.quantity, r.purchaseCostPerPiece, r.sellCostPerPiece⟩

/-- Build the stored `items` array from the requested one. -/
def buildItems (rs : List ColorReq) : List Color :=
  rs.map fun c => ⟨c.color, c.sizes.map buildSize⟩

/-- One size entry's contribution to the investment total. -/
def sizeInvestment (r : SizeReq) : ℚ :=
  (r.quantity : ℚ) * r.purchaseCostPerPiece

/-- `totalInvestment = Σ quantity × purchaseCostPerPiece` over all sizes. -/
def investmentOf (rs : List ColorReq) : ℚ :=
  (rs.map fun c => (c.sizes.map sizeInvestment).sum).sum

/-- `Lot.findOne({tenantId, lotNumber})` used by the duplicate check of
`createLot`. -/
def lotNumberExists (lots : List Lot) (tid : Nat) (n : String) : Bool :=
  lots.any fun l => decide (l.tenantId = tid ∧ l.lotNumber = n)

/-- The duplicate check of `updateLot`: another lot (`_id ≠ lid`) of the
tenant already holds the number. -/
def otherLotHasNumber (lots : List Lot) (tid : Nat) (n : String) (lid : Nat) : Bool :=
  lots.any fun l => decide (l.tenantId = tid ∧ l.lotNumber = n ∧ l.id ≠ lid)

/-- Outcome of the lot-lifecycle handlers. -/
structure LotOutcome where
  state : DBState
  result : Except ApiError Lot
  deriving DecidableEq

/-- `createLot` (lot controller): validate, reject duplicate lot numbers
in the tenant, seed `remainingQuantity = quantity` for every size, compute
`totalInvestment`, initialize revenue and profit to 0.  `newId` and `now`
stand for the ObjectId and timestamp the storage layer generates. -/
def createLot (tid uid newId now : Nat) (req : LotRequest) (st : DBState) : LotOutcome :=
  if ValidLotReq req then
    if lotNumberExists st.lots tid req.lotNumber then
      ⟨st, .error .validationError⟩
    else
      let lot : Lot :=
        ⟨newId, tid, req.lotNumber, buildItems req.items, investmentOf req.items,
          0, 0, now, uid⟩
      ⟨⟨st.lots ++ [lot], st.transactions⟩, .ok lot⟩
  else ⟨st, .error .validationError⟩

/-- `updateLot` (lot controller): validate, resolve the lot tenant-scoped,
reject renaming to a number already used by another lot of the tenant,
then replace `lotNumber`, `items` (remaining quantities reset to full) and
`totalInvestment` on the fetched document and save it. -/
def updateLot (tid lid : Nat) (req : LotRequest) (st : DBState) : LotOutcome :=
  if ValidLotReq req then
    match findLot st.lots lid tid with
    | none => ⟨st, .error .notFound⟩
    | some lot =>
      if req.lotNumber ≠ lot.lotNumber ∧ otherLotHasNumber st.lots tid req.lotNumber lid then
        ⟨st, .error .validationError⟩
      else
        let lot' := { lot with
          lotNumber := req.lotNumber
          items := buildItems req.items
          totalInvestment := investmentOf req.items }
        ⟨⟨saveLot st.lots lot', st.transactions⟩, .ok lot'⟩
  else ⟨st, .error .validationError⟩

/-- Outcome of `deleteLot`. -/
structure DeleteOutcome where
  state : DBState
  result : Except ApiError Unit
  deriving DecidableEq

/-- `deleteLot` (lot controller): resolve the lot tenant-scoped, allow only
admins or the creator, then permanently delete the document.  Transactions
are never touched. -/
def deleteLot (tid uid : Nat) (role : Role) (lid : Nat) (st : DBState) : DeleteOutcome :=
  match findLot st.lots lid tid with
  | none => ⟨st, .error .notFound⟩
  | some lot =>
    if role ≠ Role.admin ∧ lot.createdBy ≠ uid then
      ⟨st, .error .forbidden⟩
    else
      ⟨⟨removeById st.lots lid, st.transactions⟩, .ok ()⟩

/-- `getLot` (lot controller): tenant-scoped read. -/
def getLot (tid lid : Nat) (st : DBState) : Except ApiError Lot :=
  match findLot st.lots lid tid with
  | none => .error .notFound
  | some lot => .ok lot

/-- `Tenant.findById`. -/
def findTenant (tenants : List Tenant) (tid : Nat) : Option Tenant :=
  tenants.find? fun t => decide (t.id = tid)

/-- `Lot.findOne({tenantId}).sort({createdAt: -1})`: the tenant's most
recently created lot (earliest on equal timestamps). -/
def mostRecent : List Lot → Option Lot
  | [] => none
  | l :: ls =>
    match mostRecent ls with
    | none => some l
    | some m => if m.createdAt > l.createdAt then some m else some l

/-- The characters matched by the regex `(\d+)$` on `s` (the maximal run
of trailing ASCII digits). -/
def trailingDigits (s : String) : List Char :=
  (s.toList.reverse.takeWhile Char.isDigit).reverse

/-- `parseInt` on a digit run. -/
def digitsVal (cs : List Char) : Nat :=
  cs.foldl (fun a c => a * 10 + (c.toNat - 48)) 0

/-- `lotNumber.match(/(\d+)$/)` followed by `parseInt(match[1], 10)`:
`none` when the regex does not match. -/
def trailingNat (s : String) : Option Nat :=
  match trailingDigits s with
  | [] => none
  | ds => some (digitsVal ds)

/-- `nextNumber.toString().padStart(4, '0')`. -/
def padTo4 (s : String) : String :=
  if s.length < 4 then String.mk (List.replicate (4 - s.length) '0') ++ s else s

/-- `generateLotNumber` (lot controller): look up the tenant, take its lot
prefix (falling back to "LOT-" when empty), take the most recently created
lot of the tenant, increment its trailing numeric suffix (1 when there is
no prior lot or no suffix), and zero-pad to width 4. -/
def generateLotNumber (tid : Nat) (tenants : List Tenant) (lots : List Lot) :
    Except ApiError String :=
  match findTenant tenants tid with
  | none => .error .notFound
  | some tenant =>
    let pfx := if tenant.lotPfx = "" then "LOT-" else tenant.lotPfx
    let tenantLots := lots.filter fun l => decide (l.tenantId = tid)
    let nextNumber :=
      match mostRecent tenantLots with
      | none => 1
      | some lastLot =>
        match trailingNat lastLot.lotNumber with
        | some m => m + 1
        | none => 1
    .ok (pfx ++ padTo4 (toString nextNumber))

/-! ### Specification-side measures over the embedded model -/

/-- Look up the size entry the sale loop would resolve for `(c, s)`:
first matching color, then first matching size inside it. -/
def sizeEntry (items : List Color) (c s : String) : Option Size :=
  match findColor items c with
  | none => none
  | some col => findSize col.sizes s

/-- The processed sold item `createSale` pushes for a request line. -/
def mkSoldItem (r : SoldItemReq) : SoldItem :=
  ⟨r.color, r.size, r.quantity, r.sellPricePerPiece, (r.quantity : ℚ) * r.sellPricePerPiece⟩

/-- Total quantity the request lines ask for the name pair `(c, s)`. -/
def reqQtyFor (c s : String) (rs : List SoldItemReq) : Int :=
  (rs.map fun r => if r.color = c ∧ r.size = s then r.quantity else 0).sum

/-- Revenue of one request line: `quantity × sellPricePerPiece`. -/
def lineRevenue (r : SoldItemReq) : ℚ :=
  (r.quantity : ℚ) * r.sellPricePerPiece

/-- Revenue aggregated over the request lines. -/
def saleRevenue (rs : List SoldItemReq) : ℚ :=
  (rs.map lineRevenue).sum

/-- Margin of one request line against the stored purchase cost of the
size entry it resolves to: `Q×S − Q×P = Q×(S−P)`. -/
def lineMargin (items : List Color) (r : SoldItemReq) : ℚ :=
  match sizeEntry items r.color r.size with
  | some sz => (r.quantity : ℚ) * r.sellPricePerPiece - (r.quantity : ℚ) * sz.purchaseCostPerPiece
  | none => 0

/-- Margin aggregated over the request lines. -/
def saleMargin (items : List Color) (rs : List SoldItemReq) : ℚ :=
  (rs.map (lineMargin items)).sum

/-- One sold item's contribution to the quantity sold under name `(c, s)`. -/
def itemQty (c s : String) (it : SoldItem) : Int :=
  if it.color = c ∧ it.size = s then it.quantity else 0

/-- One transaction's contribution to the quantity sold against lot `lid`
under name `(c, s)`. -/
def txSoldQty (lid : Nat) (c s : String) (tx : Transaction) : Int :=
  if tx.lotId = lid then (tx.soldItems.map (itemQty c s)).sum else 0

/-- Total quantity sold against lot `lid` under name `(c, s)` across all
transaction records. -/
def soldQty (txs : List Transaction) (lid : Nat) (c s : String) : Int :=
  (txs.map (txSoldQty lid c s)).sum

/-- The per-size stock invariant `0 ≤ remainingQuantity ≤ quantity` over a
list of color entries. -/
def ItemsInv (items : List Color) : Prop :=
  ∀ col ∈ items, ∀ z ∈ col.sizes, 0 ≤ z.remainingQuantity ∧ z.remainingQuantity ≤ z.quantity

instance (items : List Color) : Decidable (ItemsInv items) := by
  unfold ItemsInv; exact inferInstance

/-- The stock invariant for a whole lot. -/
def LotInv (lot : Lot) : Prop := ItemsInv lot.items

instance (lot : Lot) : Decidable (LotInv lot) := by
  unfold LotInv; exact inferInstance

/-- The stock invariant for every lot of the store. -/
def StateInv (st : DBState) : Prop := ∀ lot ∈ st.lots, LotInv lot

instance (st : DBState) : Decidable (StateInv st) := by
  unfold StateInv; exact inferInstance

/-- Color names pairwise distinct, and size labels pairwise distinct
inside every color entry. -/
def NamesDistinct (items : List Color) : Prop :=
  (items.map Color.color).Nodup ∧ ∀ col ∈ items, (col.sizes.map Size.size).Nodup

instance (items : List Color) : Decidable (NamesDistinct items) := by
  unfold NamesDistinct; exact inferInstance

/-- The color/size name structure of an `items` array, forgetting
quantities and costs. -/
def itemsShape (items : List Color) : List (String × List String) :=
  items.map fun c => (c.color, c.sizes.map Size.size)

/-- Run a list of sale requests in order, all of which must succeed. -/
def runSales (tid uid : Nat) (st : DBState) : List SaleRequest → Option DBState
  | [] => some st
  | r :: rs =>
    match createSale tid uid st r with
    | ⟨st', .ok _⟩ => runSales tid uid st' rs
    | _ => none

/-! ### Concrete fixtures used by witnesses and counterexamples

They replay the end-to-end scenario of the spec (§8): lot `LOT-0001`,
one color "Red", one size "M", quantity 10, purchase cost 5, sell cost 8. -/

/-- Size request of the demo scenario. -/
def demoSizeReq : SizeReq := ⟨"M", 10, 5, 8⟩

/-- Lot request of the demo scenario. -/
def demoLotReq : LotRequest := ⟨"LOT-0001", [⟨"Red", [demoSizeReq]⟩]⟩

/-- Store holding the freshly created demo lot (id 1, tenant 1, user 1). -/
def demoSt : DBState := (createLot 1 1 1 100 demoLotReq ⟨[], []⟩).state

/-- Sale request: 3 × (Red, M) at the stored sell price 8. -/
def demoSaleReq : SaleRequest := ⟨1, [⟨"Red", "M", 3, 8⟩], none, none⟩

/-- Same request with the stock check bound to fail (only 10 available). -/
def demoBigSaleReq : SaleRequest := ⟨1, [⟨"Red", "M", 11, 8⟩], none, none⟩

/-- The demo lot as `createLot` persists it. -/
def demoLot : Lot :=
  ⟨1, 1, "LOT-0001", buildItems demoLotReq.items, investmentOf demoLotReq.items, 0, 0, 100, 1⟩

/-- A sale request identical to the others except for the submitted
`sellPricePerPiece`. -/
def priceReq (p : ℚ) : SaleRequest := ⟨1, [⟨"Red", "M", 1, p⟩], none, none⟩

/-- Some size entry of some lot of the store with id `lid` under tenant
`tid` breaks the conservation equation
`quantity = remainingQuantity + Σ sold quantities for its (color, size)`. -/
def ViolatesConservation (st : DBState) (lid tid : Nat) : Prop :=
  ∃ lot ∈ st.lots, lot.id = lid ∧ lot.tenantId = tid ∧
    ∃ col ∈ lot.items, ∃ z ∈ col.sizes,
      z.quantity ≠ z.remainingQuantity + soldQty st.transactions lid col.color z.size

instance (st : DBState) (lid tid : Nat) : Decidable (ViolatesConservation st lid tid) := by
  unfold ViolatesConservation; exact inferInstance

/-- A lot request with two color entries of the same name — accepted by the
zod schemas, which never check name uniqueness. -/
def cexLotReq : LotRequest := ⟨"L1", [⟨"Red", [⟨"M", 5, 5, 8⟩]⟩, ⟨"Red", [⟨"M", 5, 5, 8⟩]⟩]⟩

/-- A sale of 3 × (Red, M) against the duplicate-name lot. -/
def cexSaleReq : SaleRequest := ⟨1, [⟨"Red", "M", 3, 8⟩], none, none⟩

/-- The store holding the freshly created duplicate-name lot. -/
def cexSt1 : DBState := (createLot 1 1 1 100 cexLotReq ⟨[], []⟩).state

/-- A second tenant's store for the isolation witnesses: the demo lot
belongs to tenant 2 here. -/
def crossSt : DBState := (createLot 2 7 1 100 demoLotReq ⟨[], []⟩).state

/-- The lot of `crossSt` (id 1, tenant 2, creator 7). -/
def crossLot : Lot :=
  ⟨1, 2, "LOT-0001", buildItems demoLotReq.items, investmentOf demoLotReq.items, 0, 0, 100, 7⟩

/-- A full-replace request used by the updateLot witnesses. -/
def updReq : LotRequest := ⟨"LOT-0001B", [⟨"Green", [⟨"L", 2, 1, 2⟩]⟩]⟩

/-- The demo lot after `updateLot` with `updReq`. -/
def updLot : Lot :=
  ⟨1, 1, "LOT-0001B", buildItems updReq.items, investmentOf updReq.items, 0, 0, 100, 1⟩

/-- Conservation-tracking invariant for the lot with id `newId` created
with items `items0`: ids are unique, the tracked lot is present under the
right tenant with an unchanged color/size shape, and every resolvable size
entry equals its initial value with `remainingQuantity` lowered by exactly
the total quantity the transaction store records as sold for its names. -/
def Tracks (tid newId : Nat) (items0 : List Color) (st : DBState) : Prop :=
  (st.lots.map Lot.id).Nodup ∧
  ∃ lotC ∈ st.lots, lotC.id = newId ∧ lotC.tenantId = tid ∧
    itemsShape lotC.items = itemsShape items0 ∧
    ∀ c s, sizeEntry lotC.items c s =
      (sizeEntry items0 c s).map fun z =>
        { z with remainingQuantity := z.remainingQuantity - soldQty st.transactions newId c s }

/-- The demo store after two successful demo sales. -/
def demoRunSt : DBState := (runSales 1 1 demoSt [demoSaleReq, demoSaleReq]).getD ⟨[], []⟩

/-- The demo lot inside `demoRunSt`. -/
def demoRunLot : Lot := demoRunSt.lots.headD ⟨0, 0, "", [], 0, 0, 0, 0, 0⟩

/-- Its single color entry. -/
def demoRunCol : Color := demoRunLot.items.headD ⟨"", []⟩

/-- Its single size entry. -/
def demoRunSize : Size := demoRunCol.sizes.headD ⟨"", 0, 0, 0, 0⟩

/-! ### General lemmas about the list-update helpers -/

theorem updateFirst_eq_self {p : α → Bool} {f : α → α} :
    ∀ {l : List α}, (∀ x ∈ l, p x = false) → updateFirst p f l = l
  | [], _ => rfl
  | x :: xs, h => by
    simp only [updateFirst, h x (List.mem_cons_self x xs), Bool.false_eq_true, if_false,
      List.cons.injEq, true_and]
    exact updateFirst_eq_self fun y hy => h y (List.mem_cons_of_mem x hy)

theorem mem_updateFirst {p : α → Bool} {f : α → α} :
    ∀ {l : List α} {y : α}, y ∈ updateFirst p f l → y ∈ l ∨ ∃ x ∈ l, p x = true ∧ y = f x
  | [], _, h => absurd h (by simp [updateFirst])
  | x :: xs, y, h => by
    by_cases hx : p x = true
    · rw [updateFirst, if_pos hx] at h
      rcases List.mem_cons.mp h with h | h
      · exact Or.inr ⟨x, List.mem_cons_self x xs, hx, h⟩
      · exact Or.inl (List.mem_cons_of_mem x h)
    · rw [updateFirst, if_neg hx] at h
      rcases List.mem_cons.mp h with h | h
      · exact Or.inl (h ▸ List.mem_cons_self x xs)
      · rcases mem_updateFirst h with h' | ⟨x', hx', hp, hy⟩
        · exact Or.inl (List.mem_cons_of_mem x h')
        · exact Or.inr ⟨x', List.mem_cons_of_mem x hx', hp, hy⟩

theorem map_updateFirst (g : α → β) {p : α → Bool} {f : α → α}
    (hf : ∀ x, p x = true → g (f x) = g x) :
    ∀ l : List α, (updateFirst p f l).map g = l.map g
  | [] => rfl
  | x :: xs => by
    by_cases hx : p x = true
    · simp only [updateFirst, if_pos hx, List.map_cons, hf x hx]
    · simp only [updateFirst, if_neg hx, List.map_cons, map_updateFirst g hf xs]

/-! ### The in-memory decrement of `createSale`'s loop -/

theorem findSize_decSizes (s0 : String) (q : Int) (s : String) :
    ∀ sizes : List Size,
      findSize (decSizes sizes s0 q) s =
        if s = s0 then
          (findSize sizes s).map fun z => { z with remainingQuantity := z.remainingQuantity - q }
        else findSize sizes s
  | [] => by
    by_cases h : s = s0 <;> simp [findSize, decSizes, updateFirst, h]
  | z :: zs => by
    by_cases hz0 : z.size = s0
    · by_cases hss : s = s0
      · subst hss
        rw [decSizes, updateFirst, if_pos (decide_eq_true hz0)]
        rw [findSize, List.find?_cons_of_pos _ (by simpa using hz0),
          findSize, List.find?_cons_of_pos _ (by simpa using hz0)]
        simp
      · rw [decSizes, updateFirst, if_pos (decide_eq_true hz0)]
        have hzs : z.size ≠ s := fun h => hss (hz0 ▸ h).symm
        rw [findSize, List.find?_cons_of_neg _ (by simpa using hzs),
          if_neg hss, findSize, List.find?_cons_of_neg _ (by simpa using hzs)]
    · rw [decSizes, updateFirst, if_neg (by simpa using hz0)]
      by_cases hzs : z.size = s
      · have hss : s ≠ s0 := fun h => hz0 (hzs ▸ h)
        rw [findSize, List.find?_cons_of_pos _ (by simpa using hzs), if_neg hss,
          findSize, List.find?_cons_of_pos _ (by simpa using hzs)]
      · rw [findSize, List.find?_cons_of_neg _ (by simpa using hzs)]
        have ih := findSize_decSizes s0 q s zs
        simp only [decSizes, findSize] at ih
        rw [ih]
        by_cases hss : s = s0
        · rw [if_pos hss, if_pos hss, findSize, List.find?_cons_of_neg _ (by simpa using hzs)]
        · rw [if_neg hss, if_neg hss, findSize, List.find?_cons_of_neg _ (by simpa using hzs)]

theorem findColor_decrementSize (c0 s0 : String) (q : Int) (c : String) :
    ∀ items : List Color,
      findColor (decrementSize items c0 s0 q) c =
        if c = c0 then
          (findColor items c).map fun col => { col with sizes := decSizes col.sizes s0 q }
        else findColor items c
  | [] => by
    by_cases h : c = c0 <;> simp [findColor, decrementSize, updateFirst, h]
  | x :: xs => by
    by_cases hx0 : x.color = c0
    · by_cases hcc : c = c0
      · subst hcc
        rw [decrementSize, updateFirst, if_pos (decide_eq_true hx0)]
        rw [findColor, List.find?_cons_of_pos _ (by simpa using hx0),
          findColor, List.find?_cons_of_pos _ (by simpa using hx0)]
        simp
      · rw [decrementSize, updateFirst, if_pos (decide_eq_true hx0)]
        have hxc : x.color ≠ c := fun h => hcc (hx0 ▸ h).symm
        rw [findColor, List.find?_cons_of_neg _ (by simpa using hxc),
          if_neg hcc, findColor, List.find?_cons_of_neg _ (by simpa using hxc)]
    · rw [decrementSize, updateFirst, if_neg (by simpa using hx0)]
      by_cases hxc : x.color = c
      · have hcc : c ≠ c0 := fun h => hx0 (hxc ▸ h)
        rw [findColor, List.find?_cons_of_pos _ (by simpa using hxc), if_neg hcc,
          findColor, List.find?_cons_of_pos _ (by simpa using hxc)]
      · rw [findColor, List.find?_cons_of_neg _ (by simpa using hxc)]
        have ih := findColor_decrementSize c0 s0 q c xs
        simp only [decrementSize, findColor] at ih
        rw [ih]
        by_cases hcc : c = c0
        · rw [if_pos hcc, if_pos hcc, findColor, List.find?_cons_of_neg _ (by simpa using hxc)]
        · rw [if_neg hcc, if_neg hcc, findColor, List.find?_cons_of_neg _ (by simpa using hxc)]

/-- Effect of the loop's single-line mutation on the size entry the loop
resolves for any name pair: only `(c0, s0)` changes, and only its
`remainingQuantity`. -/
theorem sizeEntry_decrementSize (items : List Color) (c0 s0 : String) (q : Int) (c s : String) :
    sizeEntry (decrementSize items c0 s0 q) c s =
      if c = c0 ∧ s = s0 then
        (sizeEntry items c s).map fun z => { z with remainingQuantity := z.remainingQuantity - q }
      else sizeEntry items c s := by
  unfold sizeEntry
  rw [findColor_decrementSize]
  by_cases hc : c = c0
  · rw [if_pos hc]
    cases hfc : findColor items c with
    | none => by_cases hs : s = s0 <;> simp [hs, hc]
    | some col =>
      simp only [Option.map_some']
      rw [findSize_decSizes]
      by_cases hs : s = s0
      · rw [if_pos hs, if_pos ⟨hc, hs⟩]
      · rw [if_neg hs, if_neg (fun h => hs h.2)]
  · rw [if_neg hc, if_neg (fun h => hc h.1)]

theorem lineMargin_decrementSize (items : List Color) (c0 s0 : String) (q : Int)
    (r : SoldItemReq) :
    lineMargin (decrementSize items c0 s0 q) r = lineMargin items r := by
  unfold lineMargin
  rw [sizeEntry_decrementSize]
  by_cases h : r.color = c0 ∧ r.size = s0
  · rw [if_pos h]; cases sizeEntry items r.color r.size <;> simp
  · rw [if_neg h]

theorem saleMargin_decrementSize (items : List Color) (c0 s0 : String) (q : Int)
    (rs : List SoldItemReq) :
    saleMargin (decrementSize items c0 s0 q) rs = saleMargin items rs := by
  unfold saleMargin
  have hfun : lineMargin (decrementSize items c0 s0 q) = lineMargin items :=
    funext fun r => lineMargin_decrementSize items c0 s0 q r
  rw [hfun]

theorem sizeEntry_eq_of_find (items : List Color) (c s : String) {col : Color} {z : Size}
    (hfc : findColor items c = some col) (hfs : findSize col.sizes s = some z) :
    sizeEntry items c s = some z := by
  unfold sizeEntry
  rw [hfc]
  exact hfs

/-- Combined effect of a successful pass of `createSale`'s loop: every
resolved size entry is decremented by the total quantity the lines request
for its names, revenue and profit accumulate the per-line amounts computed
against the pre-loop items, and the processed items mirror the request
lines in order. -/
theorem processSoldItems_ok :
    ∀ (rs : List SoldItemReq) (st fin : LoopState), processSoldItems rs st = .ok fin →
      (∀ c s, sizeEntry fin.items c s =
        (sizeEntry st.items c s).map fun z =>
          { z with remainingQuantity := z.remainingQuantity - reqQtyFor c s rs }) ∧
      fin.totalRevenue = st.totalRevenue + saleRevenue rs ∧
      fin.totalProfit = st.totalProfit + saleMargin st.items rs ∧
      fin.processedItems = st.processedItems ++ rs.map mkSoldItem
  | [], st, fin, h => by
    rw [processSoldItems] at h
    cases h
    refine ⟨fun c s => ?_, by simp [saleRevenue], by simp [saleMargin], by simp⟩
    cases sizeEntry st.items c s <;> simp [reqQtyFor]
  | r :: rs, st, fin, h => by
    rw [processSoldItems] at h
    cases hfc : findColor st.items r.color with
    | none => rw [hfc] at h; cases h
    | some colorItem =>
      rw [hfc] at h
      simp only [] at h
      cases hfs : findSize colorItem.sizes r.size with
      | none => rw [hfs] at h; cases h
      | some sizeItem =>
        rw [hfs] at h
        simp only [] at h
        by_cases hlt : sizeItem.remainingQuantity < r.quantity
        · rw [if_pos hlt] at h; cases h
        · rw [if_neg hlt] at h
          have hse : sizeEntry st.items r.color r.size = some sizeItem :=
            sizeEntry_eq_of_find _ _ _ hfc hfs
          obtain ⟨ih1, ih2, ih3, ih4⟩ := processSoldItems_ok rs _ fin h
          refine ⟨fun c s => ?_, ?_, ?_, ?_⟩
          · rw [ih1 c s]
            simp only [sizeEntry_decrementSize]
            by_cases hcs : c = r.color ∧ s = r.size
            · rw [if_pos hcs]
              have hq : reqQtyFor c s (r :: rs) = r.quantity + reqQtyFor c s rs := by
                simp [reqQtyFor, hcs.1.symm, hcs.2.symm]
              cases sizeEntry st.items c s <;> simp [hq, sub_sub]
            · rw [if_neg hcs]
              have hq : reqQtyFor c s (r :: rs) = reqQtyFor c s rs := by
                have : ¬(r.color = c ∧ r.size = s) := fun hcontra =>
                  hcs ⟨hcontra.1.symm, hcontra.2.symm⟩
                simp [reqQtyFor, this]
              rw [hq]
          · rw [ih2]
            simp only [saleRevenue, List.map_cons, List.sum_cons, lineRevenue]
            ring
          · rw [ih3]
            simp only [saleMargin_decrementSize]
            simp only [saleMargin, List.map_cons, List.sum_cons, lineMargin, hse]
            ring
          · rw [ih4]
            simp [mkSoldItem]

/-! ### Membership and distinct-name lemmas -/

theorem mem_updateFirst_find? {p : α → Bool} {f : α → α} :
    ∀ {l : List α} {y : α}, y ∈ updateFirst p f l →
      y ∈ l ∨ ∃ a, l.find? p = some a ∧ y = f a
  | [], _, h => absurd h (by simp [updateFirst])
  | x :: xs, y, h => by
    by_cases hx : p x = true
    · rw [updateFirst, if_pos hx] at h
      rcases List.mem_cons.mp h with h | h
      · exact Or.inr ⟨x, List.find?_cons_of_pos _ hx, h⟩
      · exact Or.inl (List.mem_cons_of_mem x h)
    · rw [updateFirst, if_neg hx] at h
      rcases List.mem_cons.mp h with h | h
      · exact Or.inl (h ▸ List.mem_cons_self x xs)
      · rcases mem_updateFirst_find? h with h' | ⟨a, ha, hy⟩
        · exact Or.inl (List.mem_cons_of_mem x h')
        · exact Or.inr ⟨a, by rw [List.find?_cons_of_neg _ hx]; exact ha, hy⟩

theorem sizeEntry_some_mem {items : List Color} {c s : String} {z : Size}
    (h : sizeEntry items c s = some z) :
    ∃ col ∈ items, z ∈ col.sizes := by
  unfold sizeEntry at h
  cases hfc : findColor items c with
  | none => rw [hfc] at h; cases h
  | some col =>
    rw [hfc] at h
    exact ⟨col, List.mem_of_find?_eq_some hfc, List.mem_of_find?_eq_some h⟩

theorem entries_decrementSize {items : List Color} {c0 s0 : String} {q : Int}
    {y : Color} (hy : y ∈ decrementSize items c0 s0 q) {z : Size} (hz : z ∈ y.sizes) :
    (∃ col ∈ items, z ∈ col.sizes) ∨
      ∃ z0, sizeEntry items c0 s0 = some z0 ∧
        z = { z0 with remainingQuantity := z0.remainingQuantity - q } := by
  rcases mem_updateFirst_find? hy with hy' | ⟨colF, hcolF, hyF⟩
  · exact Or.inl ⟨y, hy', hz⟩
  · subst hyF
    rcases mem_updateFirst_find? hz with hz' | ⟨z0, hz0, hzF⟩
    · exact Or.inl ⟨colF, List.mem_of_find?_eq_some hcolF, hz'⟩
    · exact Or.inr ⟨z0, sizeEntry_eq_of_find _ _ _ hcolF hz0, hzF⟩

theorem ItemsInv_decrementSize {items : List Color} {c0 s0 : String} {q : Int}
    {sizeItem : Size} (hse : sizeEntry items c0 s0 = some sizeItem)
    (hinv : ItemsInv items) (hq0 : 0 ≤ q) (hle : q ≤ sizeItem.remainingQuantity) :
    ItemsInv (decrementSize items c0 s0 q) := by
  intro col hcol z hz
  rcases entries_decrementSize hcol hz with ⟨col0, h1, h2⟩ | ⟨z0, h1, h2⟩
  · exact hinv col0 h1 z h2
  · rw [hse] at h1
    cases h1
    subst h2
    obtain ⟨col0, hc0, hz0⟩ := sizeEntry_some_mem hse
    have hb := hinv col0 hc0 sizeItem hz0
    constructor
    · simpa using hle
    · have : sizeItem.remainingQuantity - q ≤ sizeItem.remainingQuantity := by omega
      exact le_trans this hb.2

theorem processSoldItems_inv :
    ∀ (rs : List SoldItemReq) (st fin : LoopState),
      (∀ r ∈ rs, 1 ≤ r.quantity) → ItemsInv st.items →
      processSoldItems rs st = .ok fin → ItemsInv fin.items
  | [], st, fin, _, hinv, h => by
    rw [processSoldItems] at h
    cases h
    exact hinv
  | r :: rs, st, fin, hq, hinv, h => by
    rw [processSoldItems] at h
    cases hfc : findColor st.items r.color with
    | none => rw [hfc] at h; cases h
    | some colorItem =>
      rw [hfc] at h
      simp only [] at h
      cases hfs : findSize colorItem.sizes r.size with
      | none => rw [hfs] at h; cases h
      | some sizeItem =>
        rw [hfs] at h
        simp only [] at h
        by_cases hlt : sizeItem.remainingQuantity < r.quantity
        · rw [if_pos hlt] at h; cases h
        · rw [if_neg hlt] at h
          have hse : sizeEntry st.items r.color r.size = some sizeItem :=
            sizeEntry_eq_of_find _ _ _ hfc hfs
          have hq1 : 1 ≤ r.quantity := hq r (List.mem_cons_self r rs)
          refine processSoldItems_inv rs _ fin
            (fun x hx => hq x (List.mem_cons_of_mem r hx)) ?_ h
          exact ItemsInv_decrementSize hse hinv (by omega) (by omega)

theorem itemsShape_decrementSize (items : List Color) (c0 s0 : String) (q : Int) :
    itemsShape (decrementSize items c0 s0 q) = itemsShape items := by
  unfold itemsShape decrementSize
  apply map_updateFirst
  intro x _
  simp only [Prod.mk.injEq, true_and]
  unfold decSizes
  apply map_updateFirst
  intro z _
  rfl

theorem NamesDistinct_of_itemsShape_eq {a b : List Color}
    (h : itemsShape a = itemsShape b) (hnd : NamesDistinct a) : NamesDistinct b := by
  obtain ⟨h1, h2⟩ := hnd
  constructor
  · have ha : a.map Color.color = (itemsShape a).map Prod.fst := by
      simp [itemsShape, Function.comp]
    have hb : b.map Color.color = (itemsShape b).map Prod.fst := by
      simp [itemsShape, Function.comp]
    rw [hb, ← h, ← ha]
    exact h1
  · intro col hcol
    have hmem : (col.color, col.sizes.map Size.size) ∈ itemsShape b :=
      List.mem_map.mpr ⟨col, hcol, rfl⟩
    rw [← h] at hmem
    rcases List.mem_map.mp hmem with ⟨col0, hcol0, heq⟩
    have : col0.sizes.map Size.size = col.sizes.map Size.size := congrArg Prod.snd heq
    rw [← this]
    exact h2 col0 hcol0

theorem find?_of_nodup_map {g : α → β} [DecidableEq β] :
    ∀ {l : List α}, (l.map g).Nodup → ∀ {x : α}, x ∈ l →
      l.find? (fun y => decide (g y = g x)) = some x
  | [], _, _, hx => absurd hx (by simp)
  | a :: l, hnd, x, hx => by
    rcases List.mem_cons.mp hx with h | h
    · subst h
      exact List.find?_cons_of_pos _ (by simp)
    · by_cases hga : g a = g x
      · exfalso
        have : g x ∈ l.map g := List.mem_map.mpr ⟨x, h, rfl⟩
        rw [← hga] at this
        exact (List.nodup_cons.mp (by simpa using hnd)).1 this
      · rw [List.find?_cons_of_neg _ (by simpa using hga)]
        exact find?_of_nodup_map (List.nodup_cons.mp (by simpa using hnd)).2 h

/-- Under distinct names, every size entry of the items array is exactly
the entry the loop's color/size lookup resolves for its own names. -/
theorem sizeEntry_of_mem {items : List Color} (hnd : NamesDistinct items)
    {col : Color} (hcol : col ∈ items) {z : Size} (hz : z ∈ col.sizes) :
    sizeEntry items col.color z.size = some z := by
  unfold sizeEntry
  have hfc : findColor items col.color = some col := find?_of_nodup_map hnd.1 hcol
  rw [hfc]
  exact find?_of_nodup_map (hnd.2 col hcol) hz

theorem mem_buildItems {rs : List ColorReq} {col : Color} (h : col ∈ buildItems rs) :
    ∃ cr ∈ rs, col = ⟨cr.color, cr.sizes.map buildSize⟩ := by
  rcases List.mem_map.mp h with ⟨cr, hcr, heq⟩
  exact ⟨cr, hcr, heq.symm⟩

theorem buildItems_rem_eq_qty {rs : List ColorReq} {col : Color}
    (hcol : col ∈ buildItems rs) {z : Size} (hz : z ∈ col.sizes) :
    z.remainingQuantity = z.quantity := by
  obtain ⟨cr, _, heq⟩ := mem_buildItems hcol
  subst heq
  rcases List.mem_map.mp hz with ⟨sr, _, heq'⟩
  subst heq'
  rfl

theorem ItemsInv_buildItems {rs : List ColorReq}
    (h : ∀ c ∈ rs, ValidColorReq c) : ItemsInv (buildItems rs) := by
  intro col hcol z hz
  obtain ⟨cr, hcr, heq⟩ := mem_buildItems hcol
  subst heq
  rcases List.mem_map.mp hz with ⟨sr, hsr, heq'⟩
  subst heq'
  have := ((h cr hcr).2.2 sr hsr).2.1
  exact ⟨by simpa [buildSize] using by omega, le_refl _⟩

/-! ### Store-level lemmas: lookup, save, delete -/

theorem findLot_mem {lots : List Lot} {lid tid : Nat} {l : Lot}
    (h : findLot lots lid tid = some l) :
    l ∈ lots ∧ l.id = lid ∧ l.tenantId = tid := by
  refine ⟨List.mem_of_find?_eq_some h, ?_⟩
  have := List.find?_some h
  simpa using this

theorem findLot_saveLot {m : Lot} {lid tid : Nat} (hid : m.id = lid) (htid : m.tenantId = tid) :
    ∀ {lots : List Lot} {lot : Lot}, findLot lots lid tid = some lot →
      findLot (saveLot lots m) lid tid = some m
  | [], lot, h => by cases h
  | x :: xs, lot, h => by
    by_cases hx : x.id = m.id
    · rw [saveLot, updateFirst, if_pos (decide_eq_true hx)]
      exact List.find?_cons_of_pos _ (by simp [hid, htid])
    · have hxlid : ¬(x.id = lid ∧ x.tenantId = tid) := fun hc => hx (hid ▸ hc.1)
      rw [findLot, List.find?_cons_of_neg _ (by simpa using hxlid)] at h
      rw [saveLot, updateFirst, if_neg (by simpa using hx), findLot,
        List.find?_cons_of_neg _ (by simpa using hxlid)]
      exact findLot_saveLot hid htid h

theorem findLot_saveLot_other {m : Lot} {lid tid : Nat} (hm : m.id ≠ lid) :
    ∀ lots : List Lot, findLot (saveLot lots m) lid tid = findLot lots lid tid
  | [] => rfl
  | x :: xs => by
    by_cases hx : x.id = m.id
    · rw [saveLot, updateFirst, if_pos (decide_eq_true hx)]
      have hmlid : ¬(m.id = lid ∧ m.tenantId = tid) := fun hc => hm hc.1
      have hxlid : ¬(x.id = lid ∧ x.tenantId = tid) := fun hc => hm (hx ▸ hc.1)
      rw [findLot, List.find?_cons_of_neg _ (by simpa using hmlid), findLot,
        List.find?_cons_of_neg _ (by simpa using hxlid)]
    · rw [saveLot, updateFirst, if_neg (by simpa using hx)]
      by_cases hxl : x.id = lid ∧ x.tenantId = tid
      · rw [findLot, List.find?_cons_of_pos _ (by simpa using hxl), findLot,
          List.find?_cons_of_pos _ (by simpa using hxl)]
      · rw [findLot, List.find?_cons_of_neg _ (by simpa using hxl), findLot,
          List.find?_cons_of_neg _ (by simpa using hxl)]
        exact findLot_saveLot_other hm xs

theorem map_id_saveLot (lots : List Lot) (m : Lot) :
    (saveLot lots m).map Lot.id = lots.map Lot.id := by
  unfold saveLot
  apply map_updateFirst
  intro x hx
  simpa using (of_decide_eq_true hx).symm

theorem mem_saveLot {lots : List Lot} {m y : Lot} (h : y ∈ saveLot lots m) :
    y ∈ lots ∨ y = m := by
  rcases mem_updateFirst h with h' | ⟨x, _, _, hy⟩
  · exact Or.inl h'
  · exact Or.inr hy

theorem lot_eq_of_id_eq {lots : List Lot} (hnd : (lots.map Lot.id).Nodup)
    {l1 l2 : Lot} (h1 : l1 ∈ lots) (h2 : l2 ∈ lots) (h : l1.id = l2.id) : l1 = l2 :=
  List.inj_on_of_nodup_map hnd h1 h2 h

theorem findLot_none_of_other_tenant {lots : List Lot} (hnd : (lots.map Lot.id).Nodup)
    {lot : Lot} (hmem : lot ∈ lots) {tid : Nat} (htid : lot.tenantId ≠ tid) :
    findLot lots lot.id tid = none := by
  rw [findLot, List.find?_eq_none]
  intro x hx
  simp only [decide_eq_true_eq]
  intro hc
  exact htid ((lot_eq_of_id_eq hnd hx hmem hc.1) ▸ hc.2)

theorem not_mem_removeById {lid : Nat} :
    ∀ {lots : List Lot}, (lots.map Lot.id).Nodup →
      ∀ {y : Lot}, y ∈ removeById lots lid → y.id ≠ lid
  | [], _, y, hy => absurd hy (by simp [removeById])
  | x :: xs, hnd, y, hy => by
    rw [List.map_cons, List.nodup_cons] at hnd
    by_cases hx : x.id = lid
    · rw [removeById, if_pos hx] at hy
      intro hc
      have : x.id ∈ xs.map Lot.id := by
        rw [hx, ← hc]
        exact List.mem_map.mpr ⟨y, hy, rfl⟩
      exact hnd.1 this
    · rw [removeById, if_neg hx] at hy
      rcases List.mem_cons.mp hy with h | h
      · exact h ▸ hx
      · exact not_mem_removeById hnd.2 h

theorem findLot_removeById {lots : List Lot} (hnd : (lots.map Lot.id).Nodup)
    (lid tid : Nat) : findLot (removeById lots lid) lid tid = none := by
  rw [findLot, List.find?_eq_none]
  intro x hx
  simp only [decide_eq_true_eq]
  intro hc
  exact not_mem_removeById hnd hx hc.1

theorem exists_ok_of_isOk {ε α : Type} {r : Except ε α} (h : r.isOk = true) :
    ∃ a, r = .ok a := by
  cases r with
  | error e => simp [Except.isOk, Except.toBool] at h
  | ok a => exact ⟨a, rfl⟩

theorem mem_removeById {lid : Nat} :
    ∀ {lots : List Lot} {y : Lot}, y ∈ removeById lots lid → y ∈ lots
  | [], y, hy => absurd hy (by simp [removeById])
  | x :: xs, y, hy => by
    by_cases hx : x.id = lid
    · rw [removeById, if_pos hx] at hy
      exact List.mem_cons_of_mem x hy
    · rw [removeById, if_neg hx] at hy
      rcases List.mem_cons.mp hy with h | h
      · exact h ▸ List.mem_cons_self x xs
      · exact List.mem_cons_of_mem x (mem_removeById h)

/-! ### Branch characterizations of `createSale` -/

theorem createSale_error_state {tid uid : Nat} {st : DBState} {req : SaleRequest}
    {e : ApiError} (h : (createSale tid uid st req).result = .error e) :
    (createSale tid uid st req).state = st := by
  unfold createSale at h ⊢
  by_cases hv : ValidSaleReq req
  · rw [if_pos hv] at h ⊢
    cases hfl : findLot st.lots req.lotId tid with
    | none => rfl
    | some lot =>
      rw [hfl] at h
      simp only [] at h ⊢
      cases hp : processSoldItems req.soldItems ⟨lot.items, 0, 0, []⟩ with
      | error e' => rfl
      | ok fin =>
        rw [hp] at h
        simp at h
  · rw [if_neg hv]

theorem createSale_ok_spec {tid uid : Nat} {st : DBState} {req : SaleRequest}
    (hok : (createSale tid uid st req).result.isOk = true) :
    ∃ lot fin, ValidSaleReq req ∧
      findLot st.lots req.lotId tid = some lot ∧
      processSoldItems req.soldItems ⟨lot.items, 0, 0, []⟩ = .ok fin ∧
      createSale tid uid st req =
        ⟨⟨saveLot st.lots { lot with
            items := fin.items
            totalRevenue := lot.totalRevenue + fin.totalRevenue
            totalProfit := lot.totalProfit + fin.totalProfit },
          st.transactions ++ [⟨tid, req.lotId, fin.processedItems, fin.totalRevenue, uid,
            req.customerName, req.invoiceNumber⟩]⟩,
         .ok ⟨tid, req.lotId, fin.processedItems, fin.totalRevenue, uid,
            req.customerName, req.invoiceNumber⟩⟩ := by
  unfold createSale at hok ⊢
  by_cases hv : ValidSaleReq req
  · rw [if_pos hv] at hok ⊢
    cases hfl : findLot st.lots req.lotId tid with
    | none => rw [hfl] at hok; simp [Except.isOk, Except.toBool] at hok
    | some lot =>
      rw [hfl] at hok
      simp only [] at hok ⊢
      cases hp : processSoldItems req.soldItems ⟨lot.items, 0, 0, []⟩ with
      | error e' =>
        rw [hp] at hok
        simp [Except.isOk, Except.toBool] at hok
      | ok fin =>
        exact ⟨lot, fin, hv, rfl, hp, rfl⟩
  · rw [if_neg hv] at hok
    simp [Except.isOk, Except.toBool] at hok

theorem createLot_cases (tid uid newId now : Nat) (req : LotRequest) (st : DBState) :
    createLot tid uid newId now req st = ⟨st, .error .validationError⟩ ∨
    (ValidLotReq req ∧ lotNumberExists st.lots tid req.lotNumber = false ∧
      createLot tid uid newId now req st =
        ⟨⟨st.lots ++ [⟨newId, tid, req.lotNumber, buildItems req.items,
            investmentOf req.items, 0, 0, now, uid⟩], st.transactions⟩,
          .ok ⟨newId, tid, req.lotNumber, buildItems req.items,
            investmentOf req.items, 0, 0, now, uid⟩⟩) := by
  unfold createLot
  by_cases hv : ValidLotReq req
  · rw [if_pos hv]
    by_cases hd : lotNumberExists st.lots tid req.lotNumber = true
    · rw [if_pos hd]
      exact Or.inl rfl
    · rw [if_neg hd]
      exact Or.inr ⟨hv, by simpa using hd, rfl⟩
  · rw [if_neg hv]
    exact Or.inl rfl

theorem updateLot_cases (tid lid : Nat) (req : LotRequest) (st : DBState) :
    updateLot tid lid req st = ⟨st, .error .validationError⟩ ∨
    updateLot tid lid req st = ⟨st, .error .notFound⟩ ∨
    (∃ lot, ValidLotReq req ∧ findLot st.lots lid tid = some lot ∧
      ¬(req.lotNumber ≠ lot.lotNumber ∧
        otherLotHasNumber st.lots tid req.lotNumber lid = true) ∧
      updateLot tid lid req st =
        ⟨⟨saveLot st.lots { lot with
            lotNumber := req.lotNumber
            items := buildItems req.items
            totalInvestment := investmentOf req.items },
          st.transactions⟩,
          .ok { lot with
            lotNumber := req.lotNumber
            items := buildItems req.items
            totalInvestment := investmentOf req.items }⟩) := by
  unfold updateLot
  by_cases hv : ValidLotReq req
  · rw [if_pos hv]
    cases hfl : findLot st.lots lid tid with
    | none => exact Or.inr (Or.inl rfl)
    | some lot =>
      simp only []
      by_cases hd : req.lotNumber ≠ lot.lotNumber ∧
          otherLotHasNumber st.lots tid req.lotNumber lid = true
      · rw [if_pos hd]
        exact Or.inl rfl
      · rw [if_neg hd]
        exact Or.inr (Or.inr ⟨lot, hv, rfl, hd, rfl⟩)
  · rw [if_neg hv]
    exact Or.inl rfl

theorem deleteLot_cases (tid uid : Nat) (role : Role) (lid : Nat) (st : DBState) :
    deleteLot tid uid role lid st = ⟨st, .error .notFound⟩ ∨
    deleteLot tid uid role lid st = ⟨st, .error .forbidden⟩ ∨
    deleteLot tid uid role lid st = ⟨⟨removeById st.lots lid, st.transactions⟩, .ok ()⟩ := by
  unfold deleteLot
  cases hfl : findLot st.lots lid tid with
  | none => exact Or.inl rfl
  | some lot =>
    simp only []
    by_cases hf : role ≠ Role.admin ∧ lot.createdBy ≠ uid
    · rw [if_pos hf]
      exact Or.inr (Or.inl rfl)
    · rw [if_neg hf]
      exact Or.inr (Or.inr rfl)

/-! ### Claim theorems -/

/-- C1: every `createSale` call that returns an error — NotFound, a
ValidationError (malformed body or missing color/size), or
InsufficientStock — leaves the persisted state completely unchanged: no
lot (hence no size's remainingQuantity, totalRevenue or totalProfit) is
altered and no Transaction record is appended, even when earlier lines of
a multi-line request had already passed their checks and been decremented
in memory. -/
theorem createSale_error_leaves_state_unchanged (tid uid : Nat) (st : DBState)
    (req : SaleRequest) (e : ApiError)
    (h : (createSale tid uid st req).result = .error e) :
    (createSale tid uid st req).state = st :=
  createSale_error_state h

/-- Witness for C1: a sale of 11 pieces against remaining stock 10 fails
with InsufficientStock reporting available 10 / requested 11, and the
persisted store is exactly the pre-call one. -/
theorem createSale_error_leaves_state_unchanged_witness :
    (createSale 1 1 demoSt demoBigSaleReq).result =
        .error (.insufficientStock "Red" "M" 10 11) ∧
      (createSale 1 1 demoSt demoBigSaleReq).state = demoSt :=
  ⟨by decide,
    createSale_error_leaves_state_unchanged 1 1 demoSt demoBigSaleReq
      (.insufficientStock "Red" "M" 10 11) (by decide)⟩

/-- C2: every operation preserves `0 ≤ remainingQuantity ≤ quantity` for
every size entry of every lot; `createLot` and `updateLot` (replaceLot)
additionally establish `remainingQuantity = quantity` on the lot they
return.  The `createSale` case holds for arbitrary requests, including
several lines naming the same color and size: the loop checks each line
against the in-memory, already-decremented remainder before decrementing
further (`processSoldItems` recurses on `decrementSize`-d items). -/
theorem ops_preserve_stock_invariant (st : DBState) (hinv : StateInv st) :
    (∀ tid uid req, StateInv (createSale tid uid st req).state) ∧
    (∀ tid uid newId now req, StateInv (createLot tid uid newId now req st).state ∧
      ∀ lot, (createLot tid uid newId now req st).result = .ok lot →
        ∀ col ∈ lot.items, ∀ z ∈ col.sizes, z.remainingQuantity = z.quantity) ∧
    (∀ tid lid req, StateInv (updateLot tid lid req st).state ∧
      ∀ lot, (updateLot tid lid req st).result = .ok lot →
        ∀ col ∈ lot.items, ∀ z ∈ col.sizes, z.remainingQuantity = z.quantity) ∧
    (∀ tid uid role lid, StateInv (deleteLot tid uid role lid st).state) := by
  refine ⟨fun tid uid req => ?_, fun tid uid newId now req => ⟨?_, ?_⟩,
    fun tid lid req => ⟨?_, ?_⟩, fun tid uid role lid => ?_⟩
  · by_cases hok : (createSale tid uid st req).result.isOk = true
    · obtain ⟨lot, fin, hv, hfl, hp, heq⟩ := createSale_ok_spec hok
      rw [heq]
      intro l hl
      rcases mem_saveLot hl with h' | h'
      · exact hinv l h'
      · subst h'
        have hq : ∀ r ∈ req.soldItems, 1 ≤ r.quantity := fun r hr => (hv.2 r hr).2.2.1
        exact processSoldItems_inv req.soldItems ⟨lot.items, 0, 0, []⟩ fin hq
          (hinv lot (findLot_mem hfl).1) hp
    · cases hres : (createSale tid uid st req).result with
      | ok tx => rw [hres] at hok; simp [Except.isOk, Except.toBool] at hok
      | error e => rw [createSale_error_state hres]; exact hinv
  · rcases createLot_cases tid uid newId now req st with heq | ⟨hv, _, heq⟩
    · rw [heq]; exact hinv
    · rw [heq]
      intro l hl
      rcases List.mem_append.mp hl with h' | h'
      · exact hinv l h'
      · rw [List.mem_singleton.mp h']
        exact ItemsInv_buildItems hv.2.2
  · rcases createLot_cases tid uid newId now req st with heq | ⟨hv, _, heq⟩
    · rw [heq]
      intro lot hres
      cases hres
    · rw [heq]
      intro lot hres
      cases hres
      exact fun col hcol z hz => buildItems_rem_eq_qty hcol hz
  · rcases updateLot_cases tid lid req st with heq | heq | ⟨lot, hv, hfl, _, heq⟩
    · rw [heq]; exact hinv
    · rw [heq]; exact hinv
    · rw [heq]
      intro l hl
      rcases mem_saveLot hl with h' | h'
      · exact hinv l h'
      · subst h'
        exact ItemsInv_buildItems hv.2.2
  · rcases updateLot_cases tid lid req st with heq | heq | ⟨lot, hv, hfl, _, heq⟩
    · rw [heq]
      intro lot hres
      cases hres
    · rw [heq]
      intro lot hres
      cases hres
    · rw [heq]
      intro l hres
      cases hres
      exact fun col hcol z hz => buildItems_rem_eq_qty hcol hz
  · rcases deleteLot_cases tid uid role lid st with heq | heq | heq
    · rw [heq]; exact hinv
    · rw [heq]; exact hinv
    · rw [heq]
      intro l hl
      exact hinv l (mem_removeById hl)

/-- Witness for C2: the invariant holds in the demo store and is preserved
by the demo sale, and a fresh `createLot` seeds full remaining
quantities. -/
theorem ops_preserve_stock_invariant_witness :
    StateInv demoSt ∧
      StateInv (createSale 1 1 demoSt demoSaleReq).state ∧
      StateInv (createLot 1 1 2 101 ⟨"LOT-0002", [⟨"Blue", [⟨"S", 4, 2, 3⟩]⟩]⟩ demoSt).state :=
  ⟨by decide,
    (ops_preserve_stock_invariant demoSt (by decide)).1 1 1 demoSaleReq,
    ((ops_preserve_stock_invariant demoSt (by decide)).2.1 1 1 2 101
      ⟨"LOT-0002", [⟨"Blue", [⟨"S", 4, 2, 3⟩]⟩]⟩).1⟩

/-- C3: a successful `createSale` increases the target lot's
`totalRevenue` by exactly Σ Q×S over the request lines, increases its
`totalProfit` by exactly Σ (Q×S − Q×P) = Σ Q×(S−P) where P is the stored
purchase cost of the size each line resolves to in the pre-sale lot, and
leaves `totalInvestment` unchanged. -/
theorem createSale_accounting (tid uid : Nat) (st : DBState) (req : SaleRequest) (lot : Lot)
    (hlot : findLot st.lots req.lotId tid = some lot)
    (hok : (createSale tid uid st req).result.isOk = true) :
    ∃ lot', findLot (createSale tid uid st req).state.lots req.lotId tid = some lot' ∧
      lot'.totalRevenue = lot.totalRevenue + saleRevenue req.soldItems ∧
      lot'.totalProfit = lot.totalProfit + saleMargin lot.items req.soldItems ∧
      lot'.totalInvestment = lot.totalInvestment := by
  obtain ⟨lot0, fin, hv, hfl, hp, heq⟩ := createSale_ok_spec hok
  rw [hlot] at hfl
  cases hfl
  obtain ⟨hmem, hid, htid⟩ := findLot_mem hlot
  obtain ⟨hdec, hrev, hprof, hproc⟩ := processSoldItems_ok req.soldItems ⟨lot.items, 0, 0, []⟩ fin hp
  rw [heq]
  refine ⟨{ lot with
    items := fin.items
    totalRevenue := lot.totalRevenue + fin.totalRevenue
    totalProfit := lot.totalProfit + fin.totalProfit }, ?_, ?_, ?_, rfl⟩
  · exact @findLot_saveLot { lot with
      items := fin.items
      totalRevenue := lot.totalRevenue + fin.totalRevenue
      totalProfit := lot.totalProfit + fin.totalProfit }
      req.lotId tid hid htid st.lots lot hlot
  · rw [hrev]
    simp
  · rw [hprof]
    simp

/-- Witness for C3: the spec's demo scenario — 3 × (Red, M) at price 8
against purchase cost 5 over a fresh lot of 10 — where the lot afterwards
reports the expected revenue, profit, and unchanged investment. -/
theorem createSale_accounting_witness :
    ∃ lot', findLot (createSale 1 1 demoSt demoSaleReq).state.lots demoSaleReq.lotId 1 = some lot' ∧
      lot'.totalRevenue = demoLot.totalRevenue + saleRevenue demoSaleReq.soldItems ∧
      lot'.totalProfit = demoLot.totalProfit + saleMargin demoLot.items demoSaleReq.soldItems ∧
      lot'.totalInvestment = demoLot.totalInvestment :=
  createSale_accounting 1 1 demoSt demoSaleReq demoLot rfl (by decide)

/-- C4 (code-bug evidence): `createSale` computes line revenue and margin
from the client-submitted `sellPricePerPiece`, not from the lot's stored
`sellCostPerPiece`.  Two requests identical except for the submitted price
(8, the stored price, versus 9) both succeed yet produce a different
Transaction and a different persisted store — the claim requires them to
be identical. -/
theorem createSale_trusts_client_price :
    (createSale 1 1 demoSt (priceReq 8)).result.isOk = true ∧
    (createSale 1 1 demoSt (priceReq 9)).result.isOk = true ∧
    (createSale 1 1 demoSt (priceReq 8)).result ≠ (createSale 1 1 demoSt (priceReq 9)).result ∧
    (createSale 1 1 demoSt (priceReq 8)).state ≠ (createSale 1 1 demoSt (priceReq 9)).state := by
  refine ⟨by decide, by decide, by decide, fun h => ?_⟩
  exact absurd (congrArg DBState.transactions h) (by decide)

/-- C6: a `recordSale`, `deleteLot`, or `getLot` issued with tenant A's id
against a lot of tenant B returns NotFound, returns none of the lot's
data, and leaves the store untouched — exactly as if the lot did not
exist.  The `Nodup` hypothesis is mongo's `_id` uniqueness. -/
theorem tenant_isolation (st : DBState) (lotB : Lot) (tidA uid : Nat) (role : Role)
    (req : SaleRequest)
    (hnodup : (st.lots.map Lot.id).Nodup)
    (hmem : lotB ∈ st.lots)
    (htid : lotB.tenantId ≠ tidA)
    (hreq : ValidSaleReq req) (hlid : req.lotId = lotB.id) :
    createSale tidA uid st req = ⟨st, .error .notFound⟩ ∧
    deleteLot tidA uid role lotB.id st = ⟨st, .error .notFound⟩ ∧
    getLot tidA lotB.id st = .error .notFound := by
  have hnone : findLot st.lots lotB.id tidA = none :=
    findLot_none_of_other_tenant hnodup hmem htid
  refine ⟨?_, ?_, ?_⟩
  · unfold createSale
    rw [if_pos hreq, hlid, hnone]
  · unfold deleteLot
    rw [hnone]
  · unfold getLot
    rw [hnone]

/-- Witness for C6: the lot exists under tenant 2; tenant 1's sale,
delete, and lookup all answer NotFound and leave the store unchanged. -/
theorem tenant_isolation_witness :
    createSale 1 3 crossSt demoSaleReq = ⟨crossSt, .error .notFound⟩ ∧
    deleteLot 1 3 Role.admin crossLot.id crossSt = ⟨crossSt, .error .notFound⟩ ∧
    getLot 1 crossLot.id crossSt = .error .notFound :=
  tenant_isolation crossSt crossLot 1 3 Role.admin demoSaleReq (by decide)
    (List.Mem.head _) (by decide) (by decide) rfl

/-- C7: for a lot present for the tenant, `deleteLot` answers Forbidden
exactly when the acting user is neither admin nor the lot's creator;
otherwise it permanently removes the lot (the tenant-scoped lookup of its
id finds nothing afterwards); and in every case the transaction store is
left untouched. -/
theorem deleteLot_spec (tid uid : Nat) (role : Role) (lid : Nat) (st : DBState) (lot : Lot)
    (hnodup : (st.lots.map Lot.id).Nodup)
    (hfl : findLot st.lots lid tid = some lot) :
    ((deleteLot tid uid role lid st).result = .error .forbidden ↔
      (role ≠ Role.admin ∧ lot.createdBy ≠ uid)) ∧
    ((role ≠ Role.admin ∧ lot.createdBy ≠ uid) →
      deleteLot tid uid role lid st = ⟨st, .error .forbidden⟩) ∧
    (¬(role ≠ Role.admin ∧ lot.createdBy ≠ uid) →
      (deleteLot tid uid role lid st).result = .ok () ∧
      (deleteLot tid uid role lid st).state.lots = removeById st.lots lid ∧
      findLot (deleteLot tid uid role lid st).state.lots lid tid = none) ∧
    (deleteLot tid uid role lid st).state.transactions = st.transactions := by
  unfold deleteLot
  rw [hfl]
  simp only []
  by_cases hf : role ≠ Role.admin ∧ lot.createdBy ≠ uid
  · rw [if_pos hf]
    exact ⟨⟨fun _ => hf, fun _ => rfl⟩, fun _ => rfl, fun hc => absurd hf hc, rfl⟩
  · rw [if_neg hf]
    refine ⟨⟨fun hres => by simp at hres, fun hc => absurd hc hf⟩,
      fun hc => absurd hc hf, fun _ => ⟨rfl, rfl, ?_⟩, rfl⟩
    exact findLot_removeById hnodup lid tid

/-- Witness for C7: a staff user who is not the creator is refused; the
transactions are untouched in that refusal. -/
theorem deleteLot_spec_witness :
    ((deleteLot 1 99 Role.staff 1 demoSt).result = .error .forbidden ↔
      (Role.staff ≠ Role.admin ∧ demoLot.createdBy ≠ 99)) ∧
    ((Role.staff ≠ Role.admin ∧ demoLot.createdBy ≠ 99) →
      deleteLot 1 99 Role.staff 1 demoSt = ⟨demoSt, .error .forbidden⟩) ∧
    (¬(Role.staff ≠ Role.admin ∧ demoLot.createdBy ≠ 99) →
      (deleteLot 1 99 Role.staff 1 demoSt).result = .ok () ∧
      (deleteLot 1 99 Role.staff 1 demoSt).state.lots = removeById demoSt.lots 1 ∧
      findLot (deleteLot 1 99 Role.staff 1 demoSt).state.lots 1 1 = none) ∧
    (deleteLot 1 99 Role.staff 1 demoSt).state.transactions = demoSt.transactions :=
  deleteLot_spec 1 99 Role.staff 1 demoSt demoLot (by decide) rfl

/-- C8: `updateLot` fails NotFound when the lot is absent for the tenant,
fails ValidationError when renaming to a number already used by another
lot of the tenant, and on success returns the lot with its items replaced
by the new set (every remaining quantity reset to the new full quantity)
and `totalInvestment` recomputed as Σ quantity × purchaseCostPerPiece. -/
theorem updateLot_spec (tid lid : Nat) (req : LotRequest) (st : DBState)
    (hv : ValidLotReq req) :
    (findLot st.lots lid tid = none → updateLot tid lid req st = ⟨st, .error .notFound⟩) ∧
    (∀ lot, findLot st.lots lid tid = some lot → req.lotNumber ≠ lot.lotNumber →
      otherLotHasNumber st.lots tid req.lotNumber lid = true →
      updateLot tid lid req st = ⟨st, .error .validationError⟩) ∧
    (∀ lot', (updateLot tid lid req st).result = .ok lot' →
      lot'.lotNumber = req.lotNumber ∧
      lot'.items = buildItems req.items ∧
      (∀ col ∈ lot'.items, ∀ z ∈ col.sizes, z.remainingQuantity = z.quantity) ∧
      lot'.totalInvestment = investmentOf req.items) := by
  refine ⟨?_, ?_, ?_⟩
  · intro hfl
    unfold updateLot
    rw [if_pos hv, hfl]
  · intro lot hfl hne hdup
    unfold updateLot
    rw [if_pos hv, hfl]
    simp only []
    rw [if_pos ⟨hne, hdup⟩]
  · intro lot' hres
    rcases updateLot_cases tid lid req st with heq | heq | ⟨lot, _, _, _, heq⟩
    · rw [heq] at hres
      simp at hres
    · rw [heq] at hres
      simp at hres
    · rw [heq] at hres
      cases hres
      exact ⟨rfl, rfl, fun col hcol z hz => buildItems_rem_eq_qty hcol hz, rfl⟩

/-- Witness for C8: replacing the demo lot with a new single-size item set
resets remaining quantities and recomputes the investment. -/
theorem updateLot_spec_witness :
    (findLot demoSt.lots 1 1 = none → updateLot 1 1 updReq demoSt = ⟨demoSt, .error .notFound⟩) ∧
    (∀ lot, findLot demoSt.lots 1 1 = some lot → updReq.lotNumber ≠ lot.lotNumber →
      otherLotHasNumber demoSt.lots 1 updReq.lotNumber 1 = true →
      updateLot 1 1 updReq demoSt = ⟨demoSt, .error .validationError⟩) ∧
    (∀ lot', (updateLot 1 1 updReq demoSt).result = .ok lot' →
      lot'.lotNumber = updReq.lotNumber ∧
      lot'.items = buildItems updReq.items ∧
      (∀ col ∈ lot'.items, ∀ z ∈ col.sizes, z.remainingQuantity = z.quantity) ∧
      lot'.totalInvestment = investmentOf updReq.items) :=
  updateLot_spec 1 1 updReq demoSt (by decide)

/-- C10: a successful `updateLot` changes only `lotNumber`, `items` and
`totalInvestment`; the accumulated `totalRevenue` and `totalProfit`, the
creator, the creation timestamp, the tenant, and the id survive the
destructive edit. -/
theorem updateLot_frame (tid lid : Nat) (req : LotRequest) (st : DBState) (lot lot' : Lot)
    (hfl : findLot st.lots lid tid = some lot)
    (hres : (updateLot tid lid req st).result = .ok lot') :
    lot'.totalRevenue = lot.totalRevenue ∧ lot'.totalProfit = lot.totalProfit ∧
    lot'.createdBy = lot.createdBy ∧ lot'.createdAt = lot.createdAt ∧
    lot'.tenantId = lot.tenantId ∧ lot'.id = lot.id := by
  rcases updateLot_cases tid lid req st with heq | heq | ⟨lot0, _, hfl0, _, heq⟩
  · rw [heq] at hres
    simp at hres
  · rw [heq] at hres
    simp at hres
  · rw [hfl] at hfl0
    cases hfl0
    rw [heq] at hres
    cases hres
    exact ⟨rfl, rfl, rfl, rfl, rfl, rfl⟩

/-- Witness for C10: the demo edit keeps revenue, profit, creator,
timestamp, tenant and id of the demo lot. -/
theorem updateLot_frame_witness :
    updLot.totalRevenue = demoLot.totalRevenue ∧ updLot.totalProfit = demoLot.totalProfit ∧
    updLot.createdBy = demoLot.createdBy ∧ updLot.createdAt = demoLot.createdAt ∧
    updLot.tenantId = demoLot.tenantId ∧ updLot.id = demoLot.id :=
  updateLot_frame 1 1 updReq demoSt demoLot updLot rfl rfl

theorem generateLotNumber_eq (tid : Nat) (tenants : List Tenant) (lots : List Lot)
    (t : Tenant) (hten : findTenant tenants tid = some t) :
    generateLotNumber tid tenants lots =
      .ok ((if t.lotPfx = "" then "LOT-" else t.lotPfx) ++
        padTo4 (toString
          (match mostRecent (lots.filter fun l => decide (l.tenantId = tid)) with
            | none => 1
            | some lastLot =>
              match trailingNat lastLot.lotNumber with
              | some m => m + 1
              | none => 1))) := by
  unfold generateLotNumber
  rw [hten]

/-- C9: `generateLotNumber` looks at the tenant's most recently created
lot, extracts the trailing digit run of its lot number (the regex
`(\d+)$`), increments it — restarting at 1 when the tenant has no lot or
the number has no trailing digits — and returns the tenant's prefix
followed by the number zero-padded to width 4. -/
theorem generateLotNumber_spec (tid : Nat) (tenants : List Tenant) (lots : List Lot)
    (t : Tenant) (hten : findTenant tenants tid = some t) (hpfx : t.lotPfx ≠ "") :
    (mostRecent (lots.filter fun l => decide (l.tenantId = tid)) = none →
      generateLotNumber tid tenants lots = .ok (t.lotPfx ++ "0001")) ∧
    (∀ lastLot n, mostRecent (lots.filter fun l => decide (l.tenantId = tid)) = some lastLot →
      trailingNat lastLot.lotNumber = some n →
      generateLotNumber tid tenants lots = .ok (t.lotPfx ++ padTo4 (toString (n + 1)))) ∧
    (∀ lastLot, mostRecent (lots.filter fun l => decide (l.tenantId = tid)) = some lastLot →
      trailingNat lastLot.lotNumber = none →
      generateLotNumber tid tenants lots = .ok (t.lotPfx ++ "0001")) := by
  have hbase := generateLotNumber_eq tid tenants lots t hten
  rw [if_neg hpfx] at hbase
  refine ⟨fun hmr => ?_, fun lastLot n hmr htr => ?_, fun lastLot hmr htr => ?_⟩
  · rw [hbase, hmr]
    rw [show padTo4 (toString 1) = "0001" by decide]
  · rw [hbase, hmr]
    simp only [htr]
  · rw [hbase, hmr]
    simp only [htr]
    rw [show padTo4 (toString 1) = "0001" by decide]

/-- Witness for C9: tenant prefix "LOT-", most recent lot "LOT-0007" →
"LOT-0008"; also the empty-store restart "LOT-0001". -/
theorem generateLotNumber_spec_witness :
    generateLotNumber 1 [⟨1, "LOT-"⟩] [⟨5, 1, "LOT-0007", [], 0, 0, 0, 100, 1⟩] =
        .ok ("LOT-" ++ padTo4 (toString (7 + 1))) ∧
      generateLotNumber 1 [⟨1, "LOT-"⟩] [] = .ok ("LOT-" ++ "0001") :=
  ⟨(generateLotNumber_spec 1 [⟨1, "LOT-"⟩] [⟨5, 1, "LOT-0007", [], 0, 0, 0, 100, 1⟩]
      ⟨1, "LOT-"⟩ rfl (by decide)).2.1 ⟨5, 1, "LOT-0007", [], 0, 0, 0, 100, 1⟩ 7 rfl (by decide),
    (generateLotNumber_spec 1 [⟨1, "LOT-"⟩] [] ⟨1, "LOT-"⟩ rfl (by decide)).1 rfl⟩

/-! ### Conservation machinery (C5) -/

theorem mem_updateFirst_of_pred_false {p : α → Bool} {f : α → α} :
    ∀ {l : List α} {y : α}, y ∈ l → p y = false → y ∈ updateFirst p f l
  | [], _, hy, _ => absurd hy (by simp)
  | x :: xs, y, hy, hpy => by
    by_cases hx : p x = true
    · rw [updateFirst, if_pos hx]
      rcases List.mem_cons.mp hy with h | h
      · rw [h] at hpy
        rw [hpy] at hx
        cases hx
      · exact List.mem_cons_of_mem _ h
    · rw [updateFirst, if_neg hx]
      rcases List.mem_cons.mp hy with h | h
      · subst h
        exact List.mem_cons_self _ _
      · exact List.mem_cons_of_mem x (mem_updateFirst_of_pred_false h hpy)

theorem mem_saveLot_of_ne {lots : List Lot} {m y : Lot} (hy : y ∈ lots)
    (hne : y.id ≠ m.id) : y ∈ saveLot lots m :=
  mem_updateFirst_of_pred_false hy (by simpa using hne)

theorem mem_saveLot_self :
    ∀ {lots : List Lot} {m x : Lot}, x ∈ lots → x.id = m.id → m ∈ saveLot lots m
  | [], m, x, hx, _ => absurd hx (by simp)
  | l :: ls, m, x, hx, hid => by
    by_cases hl : l.id = m.id
    · rw [saveLot, updateFirst, if_pos (decide_eq_true hl)]
      exact List.mem_cons_self m _
    · rw [saveLot, updateFirst, if_neg (by simpa using hl)]
      rcases List.mem_cons.mp hx with h | h
      · rw [h] at hid
        exact absurd hid hl
      · exact List.mem_cons_of_mem l (mem_saveLot_self h hid)

theorem processSoldItems_shape :
    ∀ (rs : List SoldItemReq) (st fin : LoopState),
      processSoldItems rs st = .ok fin → itemsShape fin.items = itemsShape st.items
  | [], st, fin, h => by
    rw [processSoldItems] at h
    cases h
    rfl
  | r :: rs, st, fin, h => by
    rw [processSoldItems] at h
    cases hfc : findColor st.items r.color with
    | none => rw [hfc] at h; cases h
    | some colorItem =>
      rw [hfc] at h
      simp only [] at h
      cases hfs : findSize colorItem.sizes r.size with
      | none => rw [hfs] at h; cases h
      | some sizeItem =>
        rw [hfs] at h
        simp only [] at h
        by_cases hlt : sizeItem.remainingQuantity < r.quantity
        · rw [if_pos hlt] at h; cases h
        · rw [if_neg hlt] at h
          have := processSoldItems_shape rs _ fin h
          rw [this]
          exact itemsShape_decrementSize st.items r.color r.size r.quantity

theorem soldQty_append_single (txs : List Transaction) (tx : Transaction)
    (lid : Nat) (c s : String) :
    soldQty (txs ++ [tx]) lid c s = soldQty txs lid c s + txSoldQty lid c s tx := by
  simp [soldQty]

theorem txSoldQty_mk (lid0 lid tid0 uid0 : Nat) (rs : List SoldItemReq) (rev : ℚ)
    (cn inv : Option String) (c s : String) :
    txSoldQty lid c s ⟨tid0, lid0, rs.map mkSoldItem, rev, uid0, cn, inv⟩ =
      if lid0 = lid then reqQtyFor c s rs else 0 := by
  unfold txSoldQty
  by_cases h : lid0 = lid
  · rw [if_pos h, if_pos h]
    rw [List.map_map]
    rfl
  · rw [if_neg h, if_neg h]

theorem soldQty_eq_zero {txs : List Transaction} {lid : Nat}
    (h : ∀ tx ∈ txs, tx.lotId ≠ lid) (c s : String) : soldQty txs lid c s = 0 := by
  unfold soldQty
  rw [List.sum_eq_zero]
  intro x hx
  rcases List.mem_map.mp hx with ⟨tx, htx, heq⟩
  rw [← heq]
  unfold txSoldQty
  rw [if_neg (h tx htx)]

theorem runSales_tracks (tid uid newId : Nat) (items0 : List Color) :
    ∀ (reqs : List SaleRequest) (st st' : DBState),
      Tracks tid newId items0 st →
      runSales tid uid st reqs = some st' →
      Tracks tid newId items0 st'
  | [], st, st', ht, hrun => by
    rw [runSales] at hrun
    cases hrun
    exact ht
  | r :: reqs, st, st', ht, hrun => by
    rw [runSales] at hrun
    cases hcs : createSale tid uid st r with
    | mk st1 res =>
      rw [hcs] at hrun
      cases res with
      | error e => simp at hrun
      | ok tx =>
        simp only [] at hrun
        refine runSales_tracks tid uid newId items0 reqs st1 st' ?_ hrun
        obtain ⟨hnodup, lotC, hmemC, hidC, htidC, hshapeC, hentryC⟩ := ht
        have hok : (createSale tid uid st r).result.isOk = true := by
          rw [hcs]
          rfl
        obtain ⟨lot, fin, hv, hfl, hp, heqq⟩ := createSale_ok_spec hok
        rw [hcs] at heqq
        obtain ⟨hmemL, hidL, htidL⟩ := findLot_mem hfl
        cases heqq
        by_cases hsame : r.lotId = newId
        · -- the sale targets the tracked lot
          have hlotC : lot = lotC :=
            lot_eq_of_id_eq hnodup hmemL hmemC (by rw [hidL, hsame, hidC])
          subst hlotC
          obtain ⟨hdec, _, _, hproc⟩ := processSoldItems_ok r.soldItems ⟨lot.items, 0, 0, []⟩ fin hp
          refine ⟨by rw [map_id_saveLot]; exact hnodup,
            { lot with
              items := fin.items
              totalRevenue := lot.totalRevenue + fin.totalRevenue
              totalProfit := lot.totalProfit + fin.totalProfit },
            mem_saveLot_self hmemL rfl, hidC, htidC, ?_, ?_⟩
          · rw [show itemsShape fin.items = itemsShape lot.items from
              processSoldItems_shape r.soldItems _ fin hp]
            exact hshapeC
          · intro c s
            have h1 : sizeEntry fin.items c s =
                (sizeEntry lot.items c s).map fun z =>
                  { z with remainingQuantity := z.remainingQuantity - reqQtyFor c s r.soldItems } :=
              hdec c s
            rw [h1, hentryC c s]
            have htxs : soldQty (st.transactions ++
                [⟨tid, r.lotId, fin.processedItems, fin.totalRevenue, uid,
                  r.customerName, r.invoiceNumber⟩]) newId c s =
                soldQty st.transactions newId c s + reqQtyFor c s r.soldItems := by
              rw [soldQty_append_single]
              rw [hproc]
              rw [show ([] : List SoldItem) ++ r.soldItems.map mkSoldItem =
                r.soldItems.map mkSoldItem from by simp]
              rw [txSoldQty_mk, if_pos hsame]
            rw [htxs]
            cases sizeEntry items0 c s <;> simp [sub_sub]
        · -- the sale targets a different lot
          have hne : lotC.id ≠ lot.id := by
            rw [hidC, hidL]
            exact fun hc => hsame hc.symm
          refine ⟨by rw [map_id_saveLot]; exact hnodup, lotC,
            mem_saveLot_of_ne hmemC hne, hidC, htidC, hshapeC, ?_⟩
          intro c s
          rw [hentryC c s]
          have htxs : soldQty (st.transactions ++
              [⟨tid, r.lotId, fin.processedItems, fin.totalRevenue, uid,
                r.customerName, r.invoiceNumber⟩]) newId c s =
              soldQty st.transactions newId c s := by
            rw [soldQty_append_single]
            unfold txSoldQty
            rw [if_neg hsame]
            simp
          rw [htxs]

/-- C5 counterexample: the zod schemas never require distinct color or
size names, and `createSale` resolves lines with `find` (first match).
Against a freshly created lot with two identical "Red"/[M] color entries,
one successful sale of 3 × (Red, M) decrements only the first entry, while
the transaction store records 3 sold for the name pair — so the second
entry has quantity 5, remainingQuantity 5, and Σ sold = 3: the claimed
per-entry equation `quantity = remainingQuantity + Σ sold` fails on it. -/
theorem conservation_counterexample :
    (createLot 1 1 1 100 cexLotReq ⟨[], []⟩).result.isOk = true ∧
    (runSales 1 1 cexSt1 [cexSaleReq]).isSome = true ∧
    ViolatesConservation ((runSales 1 1 cexSt1 [cexSaleReq]).getD ⟨[], []⟩) 1 1 := by
  decide

/-- C5 (amended with the distinct-name hypothesis the counterexample
forces): after any sequence of successful sales run against a store
holding a freshly created lot — fresh id, no prior transaction naming it,
pairwise-distinct color names and size labels — every size entry of that
lot satisfies `quantity = remainingQuantity + Σ sold quantities for its
(color, size) across all transactions referencing the lot`. -/
theorem conservation_after_sales
    (tid uid newId now : Nat) (req : LotRequest) (st0 : DBState)
    (reqs : List SaleRequest)
    (hnodup : (st0.lots.map Lot.id).Nodup)
    (hfresh : ∀ l ∈ st0.lots, l.id ≠ newId)
    (hnotx : ∀ tx ∈ st0.transactions, tx.lotId ≠ newId)
    (hdn : NamesDistinct (buildItems req.items))
    (hok : (createLot tid uid newId now req st0).result.isOk = true)
    (st2 : DBState)
    (hrun : runSales tid uid (createLot tid uid newId now req st0).state reqs = some st2) :
    ∀ lot' ∈ st2.lots, lot'.id = newId →
      ∀ col ∈ lot'.items, ∀ z ∈ col.sizes,
        z.quantity = z.remainingQuantity + soldQty st2.transactions newId col.color z.size := by
  rcases createLot_cases tid uid newId now req st0 with heq | ⟨hv, hdup, heq⟩
  · rw [heq] at hok
    simp [Except.isOk, Except.toBool] at hok
  · rw [heq] at hrun
    have htracks1 : Tracks tid newId (buildItems req.items)
        ⟨st0.lots ++ [⟨newId, tid, req.lotNumber, buildItems req.items,
          investmentOf req.items, 0, 0, now, uid⟩], st0.transactions⟩ := by
      refine ⟨?_, ⟨newId, tid, req.lotNumber, buildItems req.items,
        investmentOf req.items, 0, 0, now, uid⟩,
        List.mem_append_right _ (List.mem_singleton.mpr rfl), rfl, rfl, rfl, ?_⟩
      · rw [List.map_append, List.nodup_append]
        refine ⟨hnodup, by simp, ?_⟩
        intro a ha
        rcases List.mem_map.mp ha with ⟨l, hl, heq'⟩
        simp only [List.map_cons, List.map_nil, List.mem_singleton]
        rw [← heq']
        exact hfresh l hl
      · intro c s
        rw [soldQty_eq_zero hnotx]
        cases sizeEntry (buildItems req.items) c s <;> simp
    have htracks2 := runSales_tracks tid uid newId (buildItems req.items) reqs _ st2 htracks1 hrun
    obtain ⟨hnodup2, lotC, hmemC, hidC, _, hshapeC, hentry⟩ := htracks2
    intro lot' hmem' hid' col hcol z hz
    have hC : lot' = lotC := lot_eq_of_id_eq hnodup2 hmem' hmemC (by rw [hid', hidC])
    subst hC
    have hdnC : NamesDistinct lot'.items := NamesDistinct_of_itemsShape_eq hshapeC.symm hdn
    have hse : sizeEntry lot'.items col.color z.size = some z := sizeEntry_of_mem hdnC hcol hz
    rw [hentry col.color z.size] at hse
    cases hse0 : sizeEntry (buildItems req.items) col.color z.size with
    | none =>
      rw [hse0] at hse
      cases hse
    | some z0 =>
      rw [hse0] at hse
      simp only [Option.map_some'] at hse
      have hz0 : z0.remainingQuantity = z0.quantity := by
        obtain ⟨col0, hc0, hz0'⟩ := sizeEntry_some_mem hse0
        exact buildItems_rem_eq_qty hc0 hz0'
      have hzz := Option.some.inj hse
      have h1 := congrArg Size.quantity hzz
      have h2 := congrArg Size.remainingQuantity hzz
      dsimp only [] at h1 h2
      omega

/-- Witness for the amended C5: after two successful demo sales of
3 × (Red, M) against the fresh demo lot, its (Red, M) size entry satisfies
the conservation equation (10 = 4 + 6). -/
theorem conservation_after_sales_witness :
    demoRunSize.quantity = demoRunSize.remainingQuantity +
      soldQty demoRunSt.transactions 1 demoRunCol.color demoRunSize.size :=
  conservation_after_sales 1 1 1 100 demoLotReq ⟨[], []⟩ [demoSaleReq, demoSaleReq]
    (by decide) (by decide) (by decide) (by decide) (by decide) demoRunSt rfl
    demoRunLot (List.Mem.head _) rfl demoRunCol (List.Mem.head _) demoRunSize (List.Mem.head _)

end Inventory
